import Mathlib

/-!
Verification of the svelte-proxy-lsp routing and merging core.

The definitions below are a shallow embedding of the TypeScript source:
`src/utils/documentParser.ts` (region parser, routing predicates) and
`src/proxy/ProxyServer.ts` (request handlers, merge and dedup policies).
Document text is modelled as `List Char`; machine integers as `Nat`;
fallible backend calls as `Except Unit` values handed to the handler
models as explicit parameters.
-/

namespace SvelteProxy


/-- Position in a document: 0-indexed line and character, as in the LSP. -/
structure Position where
  line : Nat
  character : Nat
deriving DecidableEq, Repr

/-- Region kind tag, mirroring the `type` field of `DocumentRegion`. -/
inductive RegionType where
  | script
  | style
  | template
deriving DecidableEq, Repr

/-- Embeds the `DocumentRegion` interface of documentParser.ts.  The
`isModule` flag models the dynamically attached `isModule` property (absent
means `false`). -/
structure DocumentRegion where
  type : RegionType
  start : Position
  endPos : Position
  lang : Option (List Char)
  content : List Char
  isModule : Bool
deriving DecidableEq, Repr

/-- Embeds the `ParsedDocument` interface of documentParser.ts. -/
structure ParsedDocument where
  script : Option DocumentRegion
  moduleScript : Option DocumentRegion
  style : Option DocumentRegion
  template : DocumentRegion
  uri : List Char
  version : Nat
deriving DecidableEq, Repr

/-- Matches a reversed pattern against a reversed string: `revStartsWith rs rp`
is true when `rp` is an initial segment of `rs`. -/
def revStartsWith : List Char → List Char → Bool
  | _, [] => true
  | [], _ :: _ => false
  | a :: as, b :: bs => a = b && revStartsWith as bs

/-- Embeds JavaScript `uri.endsWith(suffix)`. -/
def strEndsWith (s suf : List Char) : Bool :=
  revStartsWith s.reverse suf.reverse

/-- Embeds `isSvelteFile` of documentParser.ts: `uri.endsWith('.svelte')`. -/
def isSvelteFile (uri : List Char) : Bool :=
  strEndsWith uri ".svelte".toList

/-- Embeds `shouldUseSvelteServer` of documentParser.ts: always use the
Svelte server for `.svelte` files; the position parameter is unused. -/
def shouldUseSvelteServer (parsed : ParsedDocument) (_position : Option Position) : Bool :=
  isSvelteFile parsed.uri

/-- Embeds `shouldUseTypeScriptServer` of documentParser.ts: use the
TypeScript server for `.ts`/`.js`/`.tsx`/`.jsx` files that are not Svelte
files; the position parameter is unused. -/
def shouldUseTypeScriptServer (parsed : ParsedDocument) (_position : Option Position) : Bool :=
  !isSvelteFile parsed.uri &&
    (strEndsWith parsed.uri ".ts".toList ||
     strEndsWith parsed.uri ".js".toList ||
     strEndsWith parsed.uri ".tsx".toList ||
     strEndsWith parsed.uri ".jsx".toList)

/-- Helper building a `ParsedDocument` with a given uri and trivial regions,
used for concrete routing inputs. -/
def mkDoc (uri : List Char) : ParsedDocument :=
  { script := none, moduleScript := none, style := none,
    template := { type := .template, start := ⟨0, 0⟩, endPos := ⟨0, 0⟩,
                  lang := none, content := [], isModule := false },
    uri := uri, version := 1 }

/-! ## Region parser (documentParser.ts `parseDocument` and helpers) -/

/-- ASCII quote character, used by the attribute regexes (`["']`). -/
def quoteChar : Char := Char.ofNat 39

/-- Whitespace class of the JavaScript regex `\s` (common members). -/
def isJsSpace (c : Char) : Bool :=
  c = ' ' || c = '\t' || c = '\n' || c = '\r' ||
  c = Char.ofNat 11 || c = Char.ofNat 12 || c = Char.ofNat 160 || c = Char.ofNat 65279

/-- Case-sensitive prefix test between character lists. -/
def listStartsWith : List Char → List Char → Bool
  | _, [] => true
  | [], _ :: _ => false
  | a :: as, b :: bs => a = b && listStartsWith as bs

/-- Case-insensitive prefix test: the pattern is given in lower case, the
text character is lowered before comparison (models the regex `i` flag). -/
def startsWithCI : List Char → List Char → Bool
  | _, [] => true
  | [], _ :: _ => false
  | a :: as, b :: bs => a.toLower = b && startsWithCI as bs

/-- Splits at the first case-insensitive occurrence of `needle`, returning
the part before it and the part after it (models the lazy `([\s\S]*?)` up
to a closing tag). -/
def splitAtSubCI (needle : List Char) : List Char → Option (List Char × List Char)
  | [] => if startsWithCI [] needle then some ([], []) else none
  | cs@(c :: cs') =>
    if startsWithCI cs needle then some ([], cs.drop needle.length)
    else (splitAtSubCI needle cs').map (fun p => (c :: p.1, p.2))

/-- Result of one regex match of a script or style tag pattern:
match index, attribute capture, inner content capture, and the full
matched substring (`fullMatch`). -/
structure TagMatch where
  index : Nat
  attrs : List Char
  inner : List Char
  full : List Char
deriving DecidableEq, Repr

/-- Match attempt data before the index is attached: captures plus the
remaining text after the full match. -/
structure TagHit where
  attrs : List Char
  inner : List Char
  full : List Char
  rest : List Char
deriving DecidableEq, Repr

/-- Attempts to match `<open(?:\s+([^>]*?))?>([\s\S]*?)</close>` (with the
`i` flag) at the head of `cs`, following the backtracking behaviour of the
JavaScript engine: maximal leading whitespace, attributes up to the first
`>`, content up to the first closing tag. -/
def matchTagAt (openTag closeTag : List Char) (cs : List Char) : Option TagHit :=
  if startsWithCI cs openTag then
    let afterOpen := cs.drop openTag.length
    match afterOpen with
    | [] => none
    | c :: _ =>
      if c = '>' then
        match splitAtSubCI closeTag (afterOpen.drop 1) with
        | none => none
        | some (inner, rest) =>
          some { attrs := [], inner := inner,
                 full := cs.take (cs.length - rest.length), rest := rest }
      else if isJsSpace c then
        let afterWs := afterOpen.dropWhile isJsSpace
        let attrs := afterWs.takeWhile (fun d => d ≠ '>')
        match afterWs.dropWhile (fun d => d ≠ '>') with
        | '>' :: afterGt =>
          match splitAtSubCI closeTag afterGt with
          | none => none
          | some (inner, rest) =>
            some { attrs := attrs, inner := inner,
                   full := cs.take (cs.length - rest.length), rest := rest }
        | _ => none
      else none
  else none

/-- Repeated `exec` of a global tag regex: scan left to right, restart each
search right after the previous full match.  The fuel argument bounds the
number of scan steps; each step consumes at least one character, so
`cs.length + 1` is always enough. -/
def scanTagsAux (openTag closeTag : List Char) : Nat → List Char → Nat → List TagMatch
  | 0, _, _ => []
  | _ + 1, [], _ => []
  | fuel + 1, cs@(_ :: cs'), i =>
    match matchTagAt openTag closeTag cs with
    | some hit =>
      { index := i, attrs := hit.attrs, inner := hit.inner, full := hit.full } ::
        scanTagsAux openTag closeTag fuel hit.rest (i + hit.full.length)
    | none => scanTagsAux openTag closeTag fuel cs' (i + 1)

/-- All matches of the script-tag regex of `parseDocument`, in order of
appearance. -/
def scanScriptTags (cs : List Char) : List TagMatch :=
  scanTagsAux "<script".toList "</script>".toList (cs.length + 1) cs 0

/-- First match of the style-tag regex of `parseDocument` (the source calls
`exec` once, so only the first style block is recognized). -/
def findStyleTag (cs : List Char) : Option TagMatch :=
  (scanTagsAux "<style".toList "</style>".toList (cs.length + 1) cs 0).head?

/-- Matches `context\s*=\s*["']module["']` at the head of `cs`
(case-sensitive, as the source regex has no `i` flag). -/
def matchModuleAt (cs : List Char) : Bool :=
  if listStartsWith cs "context".toList then
    match (cs.drop 7).dropWhile isJsSpace with
    | '=' :: r1 =>
      match r1.dropWhile isJsSpace with
      | q :: r3 =>
        if (q = '"' || q = quoteChar) && listStartsWith r3 "module".toList then
          match r3.drop 6 with
          | q2 :: _ => q2 = '"' || q2 = quoteChar
          | [] => false
        else false
      | [] => false
    | _ => false
  else false

/-- Embeds `/context\s*=\s*["']module["']/.test(attributes)`: true when the
module-marker pattern matches anywhere in the attribute text. -/
def hasModuleMarker : List Char → Bool
  | [] => false
  | cs@(_ :: rest) => matchModuleAt cs || hasModuleMarker rest

/-- Matches `lang\s*=\s*["']([^"']+)["']` at the head of `cs` and returns
the capture group.  The head of the dropWhile remainder is necessarily a
quote, mirroring the closing `["']`. -/
def matchLangAt (cs : List Char) : Option (List Char) :=
  if listStartsWith cs "lang".toList then
    match (cs.drop 4).dropWhile isJsSpace with
    | '=' :: r1 =>
      match r1.dropWhile isJsSpace with
      | q :: r3 =>
        if q = '"' || q = quoteChar then
          let run := r3.takeWhile (fun d => d ≠ '"' && d ≠ quoteChar)
          if run.length > 0 then
            match r3.dropWhile (fun d => d ≠ '"' && d ≠ quoteChar) with
            | _ :: _ => some run
            | [] => none
          else none
        else none
      | [] => none
    | _ => none
  else none

/-- Embeds `/lang\s*=\s*["']([^"']+)["']/.exec(attributes)`: the first
match of the lang-attribute pattern, scanning left to right. -/
def findLangAttr : List Char → Option (List Char)
  | [] => none
  | cs@(_ :: rest) =>
    match matchLangAt cs with
    | some l => some l
    | none => findLangAttr rest

/-- Embeds `offsetToPosition` of documentParser.ts: count the newlines
before the offset; the character is the length of the text after the last
newline. -/
def offsetToPosition (text : List Char) (offset : Nat) : Position :=
  let pre := text.take offset
  { line := pre.count '\n',
    character := (pre.reverse.takeWhile (fun c => c ≠ '\n')).length }

/-- Embeds JavaScript `hay.indexOf(needle)` for the uses inside
`parseDocument`, where the needle always occurs in the haystack (the inner
content is a substring of the full match; `indexOf` of the empty string is
0). -/
def indexOfFrom (needle : List Char) : List Char → Nat
  | [] => 0
  | hay@(_ :: hay') =>
    if listStartsWith hay needle then 0 else indexOfFrom needle hay' + 1

/-- Builds the script `DocumentRegion` from one script-tag match, as in the
body of the `while` loop of `parseDocument`. -/
def scriptRegionOf (content : List Char) (m : TagMatch) : DocumentRegion :=
  let contentStart := m.index + indexOfFrom m.inner m.full
  { type := .script,
    start := offsetToPosition content contentStart,
    endPos := offsetToPosition content (contentStart + m.inner.length),
    lang := some ((findLangAttr m.attrs).getD "javascript".toList),
    content := m.inner,
    isModule := hasModuleMarker m.attrs }

/-- Builds the style `DocumentRegion` from the style-tag match, as in the
style branch of `parseDocument`. -/
def styleRegionOf (content : List Char) (m : TagMatch) : DocumentRegion :=
  let contentStart := m.index + indexOfFrom m.inner m.full
  { type := .style,
    start := offsetToPosition content contentStart,
    endPos := offsetToPosition content (contentStart + m.inner.length),
    lang := some ((findLangAttr m.attrs).getD "css".toList),
    content := m.inner,
    isModule := false }

/-- Embeds `content.split('\n')`. -/
def splitNl : List Char → List (List Char)
  | [] => [[]]
  | c :: cs =>
    if c = '\n' then [] :: splitNl cs
    else
      match splitNl cs with
      | l :: ls => (c :: l) :: ls
      | [] => [[c]]

/-- Builds the whole-document template region of `parseDocument`. -/
def templateRegionOf (content : List Char) : DocumentRegion :=
  let lines := splitNl content
  { type := .template,
    start := ⟨0, 0⟩,
    endPos := ⟨lines.length - 1, (lines.getLast?.getD []).length⟩,
    lang := none,
    content := content,
    isModule := false }

/-- One step of the region-assignment loop at the end of `parseDocument`:
a later region of the same slot overwrites an earlier one. -/
def assignRegion (res : ParsedDocument) (r : DocumentRegion) : ParsedDocument :=
  match r.type with
  | .script => if r.isModule then { res with moduleScript := some r } else { res with script := some r }
  | .style => { res with style := some r }
  | .template => res

/-- Embeds `parseDocument` of documentParser.ts. -/
def parseDocument (uri content : List Char) (version : Nat) : ParsedDocument :=
  let scriptRegions := (scanScriptTags content).map (scriptRegionOf content)
  let styleRegions := ((findStyleTag content).map (styleRegionOf content)).toList
  let init : ParsedDocument :=
    { script := none, moduleScript := none, style := none,
      template := templateRegionOf content, uri := uri, version := version }
  (scriptRegions ++ styleRegions).foldl assignRegion init

/-! ## Region lookup (documentParser.ts `getRegionAtPosition`) -/

/-- Embeds `isPositionInRegion` of documentParser.ts. -/
def isPositionInRegion (position : Position) (region : DocumentRegion) : Bool :=
  if position.line < region.start.line ∨ position.line > region.endPos.line then false
  else if position.line = region.start.line ∧ position.character < region.start.character then false
  else if position.line = region.endPos.line ∧ position.character > region.endPos.character then false
  else true

/-- One guarded lookup step of `getRegionAtPosition`: a present region is
returned when the position lies in it. -/
def regionHit (position : Position) : Option DocumentRegion → Option DocumentRegion
  | some r => if isPositionInRegion position r then some r else none
  | none => none

/-- Embeds `getRegionAtPosition` of documentParser.ts: script, then module
script, then style, then the template fallback. -/
def getRegionAtPosition (parsed : ParsedDocument) (position : Position) : DocumentRegion :=
  match regionHit position parsed.script with
  | some r => r
  | none =>
    match regionHit position parsed.moduleScript with
    | some r => r
    | none =>
      match regionHit position parsed.style with
      | some r => r
      | none => parsed.template

/-- Lexicographic order on positions by (line, character), as the claim
states the containment test. -/
def lexLe (p q : Position) : Prop :=
  p.line < q.line ∨ (p.line = q.line ∧ p.character ≤ q.character)

instance (p q : Position) : Decidable (lexLe p q) := by
  unfold lexLe; infer_instance

/-- Containment of a position in a region span, inclusive on both ends,
compared lexicographically — the claim-level notion. -/
def lexContains (position : Position) (r : DocumentRegion) : Prop :=
  lexLe r.start position ∧ lexLe position r.endPos

instance (position : Position) (r : DocumentRegion) : Decidable (lexContains position r) := by
  unfold lexContains; infer_instance

/-- Spec-level guarded lookup step using the claim's containment notion. -/
def hitLex (position : Position) : Option DocumentRegion → Option DocumentRegion
  | some r => if lexContains position r then some r else none
  | none => none

/-- Modelled from the claim's words: region lookup with priority
script > moduleScript > style > template and inclusive lexicographic
containment. -/
def regionAtPositionSpec (parsed : ParsedDocument) (position : Position) : DocumentRegion :=
  (((hitLex position parsed.script).orElse fun _ =>
    (hitLex position parsed.moduleScript).orElse fun _ =>
      hitLex position parsed.style).getD parsed.template)

/-! ## Characterization of the region-assignment fold -/

/-- Predicate for a non-module script region, as tested by the assignment
loop of `parseDocument`. -/
def isPlainScriptRegion (r : DocumentRegion) : Bool :=
  r.type == RegionType.script && !r.isModule

/-- Predicate for a module script region. -/
def isModuleScriptRegion (r : DocumentRegion) : Bool :=
  r.type == RegionType.script && r.isModule

/-- Predicate for a style region. -/
def isStyleRegion (r : DocumentRegion) : Bool :=
  r.type == RegionType.style

/-- Concrete three-line Svelte document of the end-to-end parse scenario. -/
def sampleSvelteDoc : List Char :=
  "<script lang=\"ts\">let n=1;</script>\n<h1>\x7bn\x7d</h1>\n<style>h1\x7bcolor:red\x7d</style>".toList

/-! ## Completion deduplication (ProxyServer.ts `deduplicateCompletions`) -/

/-- Completion item fields that the dedup key reads: `label`, optional
numeric `kind`, optional `detail`. -/
structure CompletionItem where
  label : List Char
  kind : Option Nat
  detail : Option (List Char)
deriving DecidableEq, Repr

/-- Embeds the key template string
`label:kind:detail-or-empty` — an absent kind renders as the text
`undefined`, and `detail || ""` maps both an absent and an empty detail to
the empty string. -/
def completionKey (item : CompletionItem) : List Char :=
  item.label ++ ':' ::
    ((match item.kind with
      | some k => (toString k).toList
      | none => "undefined".toList) ++ ':' :: item.detail.getD [])

/-- Seen-set filter at the heart of `deduplicateCompletions`: the set of
already-seen keys is threaded explicitly. -/
def dedupCompletionsAux (seen : List (List Char)) : List CompletionItem → List CompletionItem
  | [] => []
  | item :: rest =>
    if completionKey item ∈ seen then dedupCompletionsAux seen rest
    else item :: dedupCompletionsAux (completionKey item :: seen) rest

/-- Embeds `deduplicateCompletions` of ProxyServer.ts. -/
def deduplicateCompletions (completions : List CompletionItem) : List CompletionItem :=
  dedupCompletionsAux [] completions

/-- Modelled from the claim's words: keep the first occurrence of each key
in input order, dropping every later item with an already-kept key. -/
def keepFirstOccurrences : List CompletionItem → List CompletionItem
  | [] => []
  | item :: rest =>
    item :: keepFirstOccurrences (rest.filter fun j => completionKey j != completionKey item)
termination_by l => l.length
decreasing_by
  simp only [List.length_cons]
  exact Nat.lt_succ_of_le (List.length_filter_le _ _)

/-! ## Workspace symbol merge (ProxyServer.ts `onWorkspaceSymbol`) -/

/-- Location of a symbol as the dedup key reads it: uri and range start. -/
structure SymbolLocation where
  uri : List Char
  start : Position
deriving DecidableEq, Repr

/-- Symbol information fields read by `deduplicateWorkspaceSymbols`. -/
structure SymbolInformation where
  name : List Char
  kind : Nat
  location : SymbolLocation
deriving DecidableEq, Repr

/-- Embeds the key template string
`name:kind:uri:startLine:startCharacter`. -/
def workspaceSymbolKey (s : SymbolInformation) : List Char :=
  s.name ++ ':' ::
    ((toString s.kind).toList ++ ':' ::
      (s.location.uri ++ ':' ::
        ((toString s.location.start.line).toList ++ ':' ::
          (toString s.location.start.character).toList)))

/-- Seen-set filter of `deduplicateWorkspaceSymbols`. -/
def dedupSymbolsAux (seen : List (List Char)) : List SymbolInformation → List SymbolInformation
  | [] => []
  | s :: rest =>
    if workspaceSymbolKey s ∈ seen then dedupSymbolsAux seen rest
    else s :: dedupSymbolsAux (workspaceSymbolKey s :: seen) rest

/-- Embeds `deduplicateWorkspaceSymbols` of ProxyServer.ts. -/
def deduplicateWorkspaceSymbols (symbols : List SymbolInformation) : List SymbolInformation :=
  dedupSymbolsAux [] symbols

/-- Embeds `onWorkspaceSymbol` of ProxyServer.ts: both backends are queried
(concurrently in the source), each call has its own `.catch` returning
`null`; a null or errored response contributes nothing, the TypeScript
results come first, and the concatenation is deduplicated. -/
def onWorkspaceSymbol (tsResp svelteResp : Except Unit (Option (List SymbolInformation))) :
    List SymbolInformation :=
  let tsResults : Option (List SymbolInformation) :=
    match tsResp with
    | .ok r => r
    | .error _ => none
  let svelteResults : Option (List SymbolInformation) :=
    match svelteResp with
    | .ok r => r
    | .error _ => none
  deduplicateWorkspaceSymbols (tsResults.getD [] ++ svelteResults.getD [])

/-! ## Hover handler (ProxyServer.ts `onHover`) -/

/-- Embeds `onHover` of ProxyServer.ts: look up the cached parse (absent ⇒
null), then try the Svelte server when applicable — its response is
returned directly from inside the `try`, and only a thrown error falls
through — then the TypeScript server, else null.  The hover payload is
opaque, so the handler is polymorphic in it. -/
def onHover {α : Type} (parsed? : Option ParsedDocument) (position : Position)
    (svelteResp tsResp : Except Unit (Option α)) : Option α :=
  match parsed? with
  | none => none
  | some parsed =>
    if shouldUseSvelteServer parsed (some position) then
      match svelteResp with
      | .ok result => result
      | .error _ =>
        if shouldUseTypeScriptServer parsed (some position) then
          match tsResp with
          | .ok result => result
          | .error _ => none
        else none
    else if shouldUseTypeScriptServer parsed (some position) then
      match tsResp with
      | .ok result => result
      | .error _ => none
    else none

/-- First non-null successful result among a list of backend responses;
a null result or a thrown error moves on to the next candidate. -/
def firstNonNull {α : Type} : List (Except Unit (Option α)) → Option α
  | [] => none
  | Except.ok (some h) :: _ => some h
  | _ :: rest => firstNonNull rest

/-- Modelled from the claim's words: try the applicable backends in order
(Svelte first), return the first non-null successful result, null when no
applicable backend produces one. -/
def hoverFirstSuccessSpec {α : Type} (parsed? : Option ParsedDocument) (position : Position)
    (svelteResp tsResp : Except Unit (Option α)) : Option α :=
  match parsed? with
  | none => none
  | some parsed =>
    firstNonNull
      ((if shouldUseSvelteServer parsed (some position) then [svelteResp] else []) ++
       (if shouldUseTypeScriptServer parsed (some position) then [tsResp] else []))

/-! ## Selection ranges (ProxyServer.ts `onSelectionRanges`) -/

/-- Per-position loop body of `onSelectionRanges`: the TypeScript branch is
checked first, `else if` the Svelte branch; a successful non-empty
sub-response contributes its first range, anything else (error, null,
empty, no applicable backend) contributes nothing.  Ranges are opaque. -/
def selectionLoop {α : Type} (parsed : ParsedDocument)
    (tsResp svelteResp : Position → Except Unit (Option (List α))) :
    List Position → List α
  | [] => []
  | position :: rest =>
    (if shouldUseTypeScriptServer parsed (some position) then
       match tsResp position with
       | .ok (some (r :: _)) => [r]
       | _ => []
     else if shouldUseSvelteServer parsed (some position) then
       match svelteResp position with
       | .ok (some (r :: _)) => [r]
       | _ => []
     else []) ++ selectionLoop parsed tsResp svelteResp rest

/-- Embeds `onSelectionRanges` of ProxyServer.ts: no cached parse ⇒ empty
list, else the per-position loop. -/
def onSelectionRanges {α : Type} (parsed? : Option ParsedDocument)
    (tsResp svelteResp : Position → Except Unit (Option (List α)))
    (positions : List Position) : List α :=
  match parsed? with
  | none => []
  | some parsed => selectionLoop parsed tsResp svelteResp positions

/-- Modelled from the claim's words: the contribution of one requested
position — the first range of the sub-response of the single backend the
file-type predicates select, or nothing on error, null, empty response or
no applicable backend. -/
def selectionContribution {α : Type} (parsed : ParsedDocument)
    (tsResp svelteResp : Position → Except Unit (Option (List α)))
    (position : Position) : Option α :=
  if shouldUseTypeScriptServer parsed (some position) then
    match tsResp position with
    | .ok (some (r :: _)) => some r
    | _ => none
  else if shouldUseSvelteServer parsed (some position) then
    match svelteResp position with
    | .ok (some (r :: _)) => some r
    | _ => none
  else none


/-- Completion response payload: the source accepts either a bare array of
items or a truthy list-wrapper object whose `items` field may be absent. -/
inductive CompletionReply where
  | arr (items : List CompletionItem)
  | wrapper (items : Option (List CompletionItem))
deriving DecidableEq, Repr

/-- Contribution of one backend completion call, as pushed by the
per-backend `try`/`catch` block of `onCompletion`: a thrown error or a null
response contributes nothing; a wrapper contributes `items || []`. -/
def completionContribution : Except Unit (Option CompletionReply) → List CompletionItem
  | .ok (some (.arr items)) => items
  | .ok (some (.wrapper items)) => items.getD []
  | .ok none => []
  | .error _ => []

/-- Embeds `onCompletion` of ProxyServer.ts: no cached parse ⇒ empty list;
otherwise the Svelte contribution (when routed) followed by the TypeScript
contribution (when routed), deduplicated. -/
def onCompletion (parsed? : Option ParsedDocument) (position : Position)
    (svelteResp tsResp : Except Unit (Option CompletionReply)) : List CompletionItem :=
  match parsed? with
  | none => []
  | some parsed =>
    deduplicateCompletions
      ((if shouldUseSvelteServer parsed (some position) then
          completionContribution svelteResp
        else []) ++
       (if shouldUseTypeScriptServer parsed (some position) then
          completionContribution tsResp
        else []))

/-! ## Theorems -/

lemma routing_incompatible_suffixes (u : List Char)
    (hsv : strEndsWith u ".svelte".toList = true)
    (hts : strEndsWith u ".ts".toList = true ∨ strEndsWith u ".js".toList = true ∨
           strEndsWith u ".tsx".toList = true ∨ strEndsWith u ".jsx".toList = true) :
    False := by
  unfold strEndsWith at hsv hts
  rcases hr : u.reverse with _ | ⟨c, rest⟩
  · rw [hr] at hsv; simp [revStartsWith] at hsv
  · rw [hr] at hsv hts
    have hc : c = 'e' := by
      revert hsv; simp [revStartsWith]; intro h _; exact h
    rcases hts with h | h | h | h <;>
      · rw [hc] at h; revert h; simp [revStartsWith]

/-- C1: `shouldUseSvelteServer` is true iff the document uri ends with
`.svelte`, regardless of the position argument; `shouldUseTypeScriptServer`
is true iff the uri ends with one of the four scripting suffixes `.ts`,
`.js`, `.tsx`, `.jsx`, and is false for every `.svelte` uri. -/
theorem fileTypeRouting_suffix_characterization :
    (∀ (parsed : ParsedDocument) (pos : Option Position),
      shouldUseSvelteServer parsed pos = strEndsWith parsed.uri ".svelte".toList) ∧
    (∀ (parsed : ParsedDocument) (pos : Option Position),
      shouldUseTypeScriptServer parsed pos =
        (strEndsWith parsed.uri ".ts".toList || strEndsWith parsed.uri ".js".toList ||
         strEndsWith parsed.uri ".tsx".toList || strEndsWith parsed.uri ".jsx".toList)) ∧
    (∀ (parsed : ParsedDocument) (pos : Option Position),
      strEndsWith parsed.uri ".svelte".toList = true →
        shouldUseTypeScriptServer parsed pos = false) := by
  refine ⟨fun parsed pos => rfl, fun parsed pos => ?_, fun parsed pos h => ?_⟩
  · unfold shouldUseTypeScriptServer isSvelteFile
    cases hsv : strEndsWith parsed.uri ".svelte".toList with
    | false => simp
    | true =>
      simp only [Bool.not_true, Bool.false_and]
      cases hall : (strEndsWith parsed.uri ".ts".toList || strEndsWith parsed.uri ".js".toList ||
          strEndsWith parsed.uri ".tsx".toList || strEndsWith parsed.uri ".jsx".toList) with
      | false => rfl
      | true =>
        refine (routing_incompatible_suffixes parsed.uri hsv ?_).elim
        simp only [Bool.or_eq_true] at hall
        tauto
  · unfold shouldUseTypeScriptServer isSvelteFile
    rw [h]
    simp

/-- Witness for C1 at the concrete uri `a.svelte`. -/
theorem fileTypeRouting_suffix_characterization_witness :
    strEndsWith (mkDoc "a.svelte".toList).uri ".svelte".toList = true ∧
    shouldUseTypeScriptServer (mkDoc "a.svelte".toList) none = false :=
  ⟨by decide,
   fileTypeRouting_suffix_characterization.2.2 (mkDoc "a.svelte".toList) none (by decide)⟩

/-- C9 counterexample: at the concrete composite-suffix document
`a.svelte` the claimed overlap fails — `shouldUseSvelteServer` is true but
`shouldUseTypeScriptServer` is false, so the request is not routed to both
backends. -/
theorem routing_overlap_cex :
    shouldUseSvelteServer (mkDoc "a.svelte".toList) none = true ∧
    shouldUseTypeScriptServer (mkDoc "a.svelte".toList) none = false :=
  ⟨by decide, by decide⟩

/-- C9 amended: the routing predicates are mutually exclusive — their
conjunction is false for every parsed document and position — and a
document whose uri has the composite `.svelte` suffix is routed to the
Svelte backend only (`shouldUseSvelteServer` true,
`shouldUseTypeScriptServer` false). -/
theorem routing_mutually_exclusive_svelte_only :
    (∀ (parsed : ParsedDocument) (pos : Option Position),
      (shouldUseSvelteServer parsed pos && shouldUseTypeScriptServer parsed pos) = false) ∧
    (∀ (parsed : ParsedDocument) (pos : Option Position),
      isSvelteFile parsed.uri = true →
        shouldUseSvelteServer parsed pos = true ∧
        shouldUseTypeScriptServer parsed pos = false) := by
  constructor
  · intro parsed pos
    unfold shouldUseSvelteServer shouldUseTypeScriptServer
    cases h : isSvelteFile parsed.uri <;> simp [h]
  · intro parsed pos h
    refine ⟨h, ?_⟩
    unfold shouldUseTypeScriptServer
    rw [h]
    simp

/-- Witness for the amended C9 at the concrete uris `a.ts` and `a.svelte`. -/
theorem routing_mutually_exclusive_svelte_only_witness :
    (shouldUseSvelteServer (mkDoc "a.ts".toList) none &&
      shouldUseTypeScriptServer (mkDoc "a.ts".toList) none) = false ∧
    (shouldUseSvelteServer (mkDoc "a.svelte".toList) none = true ∧
      shouldUseTypeScriptServer (mkDoc "a.svelte".toList) none = false) :=
  ⟨routing_mutually_exclusive_svelte_only.1 (mkDoc "a.ts".toList) none,
   routing_mutually_exclusive_svelte_only.2 (mkDoc "a.svelte".toList) none (by decide)⟩

lemma isPositionInRegion_lex (pos : Position) (r : DocumentRegion) :
    isPositionInRegion pos r = decide (lexContains pos r) := by
  by_cases h : lexContains pos r
  · rw [decide_eq_true h]
    obtain ⟨h1, h2⟩ := h
    unfold lexLe at h1 h2
    unfold isPositionInRegion
    rw [if_neg (by omega), if_neg (by omega), if_neg (by omega)]
  · rw [decide_eq_false h]
    unfold lexContains lexLe at h
    unfold isPositionInRegion
    split_ifs with a b c
    · rfl
    · rfl
    · rfl
    · exact absurd ⟨by omega, by omega⟩ h

lemma regionHit_eq_hitLex (pos : Position) (o : Option DocumentRegion) :
    regionHit pos o = hitLex pos o := by
  cases o with
  | none => rfl
  | some r =>
    simp only [regionHit, hitLex, isPositionInRegion_lex]
    by_cases h : lexContains pos r <;> simp [h]

/-- C4: the containment test of `isPositionInRegion` is inclusive
lexicographic ordering by (line, character), and `getRegionAtPosition`
returns the first of script, moduleScript, style whose span contains the
position, else the template.  In particular a position inside the script
span always yields the script region, never the template. -/
theorem regionLookup_priority_lex_containment :
    (∀ (position : Position) (r : DocumentRegion),
      isPositionInRegion position r = decide (lexContains position r)) ∧
    (∀ (parsed : ParsedDocument) (position : Position),
      getRegionAtPosition parsed position = regionAtPositionSpec parsed position) := by
  refine ⟨isPositionInRegion_lex, fun parsed position => ?_⟩
  unfold getRegionAtPosition regionAtPositionSpec
  rw [regionHit_eq_hitLex, regionHit_eq_hitLex, regionHit_eq_hitLex]
  cases hitLex position parsed.script with
  | some r => simp
  | none =>
    cases hitLex position parsed.moduleScript with
    | some r => simp
    | none =>
      cases hitLex position parsed.style with
      | some r => simp
      | none => simp

lemma find?_append_eq {α : Type} (p : α → Bool) (l1 l2 : List α) :
    (l1 ++ l2).find? p =
      match l1.find? p with
      | some x => some x
      | none => l2.find? p := by
  rw [List.find?_append]
  cases l1.find? p <;> rfl

lemma find?_congr_on {α : Type} (l : List α) (p q : α → Bool)
    (h : ∀ x ∈ l, p x = q x) : l.find? p = l.find? q := by
  induction l with
  | nil => rfl
  | cons a l ih =>
    have ha := h a (by simp)
    by_cases hp : p a
    · rw [List.find?_cons_of_pos _ hp, List.find?_cons_of_pos _ (ha ▸ hp)]
    · rw [List.find?_cons_of_neg _ hp, List.find?_cons_of_neg _ (ha ▸ hp)]
      exact ih fun x hx => h x (by simp [hx])

lemma assignRegion_template (res : ParsedDocument) (r : DocumentRegion) :
    (assignRegion res r).template = res.template := by
  unfold assignRegion
  cases r.type
  · by_cases h : r.isModule <;> simp [h]
  · rfl
  · rfl

lemma foldl_assign_template (rs : List DocumentRegion) (init : ParsedDocument) :
    (rs.foldl assignRegion init).template = init.template := by
  induction rs generalizing init with
  | nil => rfl
  | cons r rs ih => rw [List.foldl_cons, ih, assignRegion_template]

lemma foldl_assign_script (rs : List DocumentRegion) (init : ParsedDocument) :
    (rs.foldl assignRegion init).script =
      match rs.reverse.find? isPlainScriptRegion with
      | some r => some r
      | none => init.script := by
  induction rs generalizing init with
  | nil => rfl
  | cons r rs ih =>
    rw [List.foldl_cons, ih, List.reverse_cons, find?_append_eq]
    cases hfind : rs.reverse.find? isPlainScriptRegion with
    | some x => rfl
    | none =>
      by_cases hp : isPlainScriptRegion r
      · rw [List.find?_singleton, if_pos hp]
        have ht : r.type = RegionType.script := by
          have := hp; unfold isPlainScriptRegion at this
          cases h : r.type <;> simp [h] at this ⊢
        have hm : r.isModule = false := by
          have := hp; unfold isPlainScriptRegion at this
          simp [ht] at this; exact this
        unfold assignRegion
        rw [ht]
        simp [hm]
      · rw [List.find?_singleton, if_neg hp]
        unfold assignRegion
        unfold isPlainScriptRegion at hp
        cases ht : r.type
        · rw [ht] at hp
          simp at hp
          simp [hp]
        · rfl
        · rfl

lemma foldl_assign_moduleScript (rs : List DocumentRegion) (init : ParsedDocument) :
    (rs.foldl assignRegion init).moduleScript =
      match rs.reverse.find? isModuleScriptRegion with
      | some r => some r
      | none => init.moduleScript := by
  induction rs generalizing init with
  | nil => rfl
  | cons r rs ih =>
    rw [List.foldl_cons, ih, List.reverse_cons, find?_append_eq]
    cases hfind : rs.reverse.find? isModuleScriptRegion with
    | some x => rfl
    | none =>
      by_cases hp : isModuleScriptRegion r
      · rw [List.find?_singleton, if_pos hp]
        have ht : r.type = RegionType.script := by
          have := hp; unfold isModuleScriptRegion at this
          cases h : r.type <;> simp [h] at this ⊢
        have hm : r.isModule = true := by
          have := hp; unfold isModuleScriptRegion at this
          simp [ht] at this; exact this
        unfold assignRegion
        rw [ht]
        simp [hm]
      · rw [List.find?_singleton, if_neg hp]
        unfold assignRegion
        unfold isModuleScriptRegion at hp
        cases ht : r.type
        · rw [ht] at hp
          simp at hp
          simp [hp]
        · rfl
        · rfl

lemma foldl_assign_style (rs : List DocumentRegion) (init : ParsedDocument) :
    (rs.foldl assignRegion init).style =
      match rs.reverse.find? isStyleRegion with
      | some r => some r
      | none => init.style := by
  induction rs generalizing init with
  | nil => rfl
  | cons r rs ih =>
    rw [List.foldl_cons, ih, List.reverse_cons, find?_append_eq]
    cases hfind : rs.reverse.find? isStyleRegion with
    | some x => rfl
    | none =>
      by_cases hp : isStyleRegion r
      · rw [List.find?_singleton, if_pos hp]
        have ht : r.type = RegionType.style := by
          have := hp; unfold isStyleRegion at this
          cases h : r.type <;> simp [h] at this ⊢
        unfold assignRegion
        rw [ht]
      · rw [List.find?_singleton, if_neg hp]
        unfold assignRegion
        unfold isStyleRegion at hp
        cases ht : r.type
        · by_cases hm : r.isModule <;> simp [hm]
        · rw [ht] at hp; simp at hp
        · rfl

lemma parseDocument_template (uri content : List Char) (v : Nat) :
    (parseDocument uri content v).template = templateRegionOf content := by
  simp only [parseDocument]
  rw [foldl_assign_template]

lemma parseDocument_script_char (uri content : List Char) (v : Nat) :
    (parseDocument uri content v).script =
      ((scanScriptTags content).map (scriptRegionOf content)).reverse.find?
        (fun r => !r.isModule) := by
  simp only [parseDocument]
  rw [foldl_assign_script, List.reverse_append, find?_append_eq]
  have hstyle : (((findStyleTag content).map (styleRegionOf content)).toList).reverse.find?
      isPlainScriptRegion = none := by
    cases h : findStyleTag content with
    | none => rfl
    | some m => simp [List.find?_singleton, isPlainScriptRegion, styleRegionOf]
  rw [hstyle]
  have hcongr : ((scanScriptTags content).map (scriptRegionOf content)).reverse.find?
        isPlainScriptRegion =
      ((scanScriptTags content).map (scriptRegionOf content)).reverse.find?
        (fun r => !r.isModule) := by
    apply find?_congr_on
    intro r hr
    rw [List.mem_reverse] at hr
    obtain ⟨m, _, rfl⟩ := List.mem_map.mp hr
    simp [isPlainScriptRegion, scriptRegionOf]
  rw [hcongr]
  cases ((scanScriptTags content).map (scriptRegionOf content)).reverse.find?
    (fun r => !r.isModule) <;> rfl

lemma parseDocument_moduleScript_char (uri content : List Char) (v : Nat) :
    (parseDocument uri content v).moduleScript =
      ((scanScriptTags content).map (scriptRegionOf content)).reverse.find?
        (fun r => r.isModule) := by
  simp only [parseDocument]
  rw [foldl_assign_moduleScript, List.reverse_append, find?_append_eq]
  have hstyle : (((findStyleTag content).map (styleRegionOf content)).toList).reverse.find?
      isModuleScriptRegion = none := by
    cases h : findStyleTag content with
    | none => rfl
    | some m => simp [List.find?_singleton, isModuleScriptRegion, styleRegionOf]
  rw [hstyle]
  have hcongr : ((scanScriptTags content).map (scriptRegionOf content)).reverse.find?
        isModuleScriptRegion =
      ((scanScriptTags content).map (scriptRegionOf content)).reverse.find?
        (fun r => r.isModule) := by
    apply find?_congr_on
    intro r hr
    rw [List.mem_reverse] at hr
    obtain ⟨m, _, rfl⟩ := List.mem_map.mp hr
    simp [isModuleScriptRegion, scriptRegionOf]
  rw [hcongr]
  cases ((scanScriptTags content).map (scriptRegionOf content)).reverse.find?
    (fun r => r.isModule) <;> rfl

lemma parseDocument_style_char (uri content : List Char) (v : Nat) :
    (parseDocument uri content v).style =
      (findStyleTag content).map (styleRegionOf content) := by
  simp only [parseDocument]
  rw [foldl_assign_style, List.reverse_append, find?_append_eq]
  have hscripts : ((scanScriptTags content).map (scriptRegionOf content)).reverse.find?
      isStyleRegion = none := by
    rw [List.find?_eq_none]
    intro r hr
    rw [List.mem_reverse] at hr
    obtain ⟨m, _, rfl⟩ := List.mem_map.mp hr
    simp [isStyleRegion, scriptRegionOf]
  cases h : findStyleTag content with
  | none => simp [hscripts]
  | some m => simp [List.find?_singleton, isStyleRegion, styleRegionOf]

/-- C2 counterexample: for a document with two plain script tags the
`script` field holds the content of the second match, not the first — the
assignment loop overwrites, so first-match-wins is false. -/
theorem script_assignment_first_match_cex :
    ((parseDocument "a.svelte".toList "<script>a</script><script>b</script>".toList 1).script.map
      (fun r => r.content)) = some ['b'] ∧ (['b'] : List Char) ≠ ['a'] :=
  ⟨rfl, by decide⟩

/-- C2 amended: the assignment loop of `parseDocument` makes the last
non-module script match (the first found scanning the match list from the
right) the `script` field, overwriting earlier matches; likewise the last
module-tagged match becomes `moduleScript`. -/
theorem script_assignment_last_match_wins :
    ∀ (uri content : List Char) (v : Nat),
      (parseDocument uri content v).script =
        ((scanScriptTags content).map (scriptRegionOf content)).reverse.find?
          (fun r => !r.isModule) ∧
      (parseDocument uri content v).moduleScript =
        ((scanScriptTags content).map (scriptRegionOf content)).reverse.find?
          (fun r => r.isModule) :=
  fun uri content v =>
    ⟨parseDocument_script_char uri content v, parseDocument_moduleScript_char uri content v⟩

/-- C3: the template region always spans the whole document — start (0,0),
end at (lastLine, lastLineLength), content equal to the full input — and
when the scanners recognize no script or style tag the `script`,
`moduleScript` and `style` fields are all absent. -/
theorem template_whole_document_invariant :
    (∀ (uri content : List Char) (v : Nat),
      (parseDocument uri content v).template.content = content ∧
      (parseDocument uri content v).template.start = ⟨0, 0⟩ ∧
      (parseDocument uri content v).template.endPos =
        ⟨(splitNl content).length - 1, ((splitNl content).getLast?.getD []).length⟩) ∧
    (∀ (uri content : List Char) (v : Nat),
      scanScriptTags content = [] → findStyleTag content = none →
        (parseDocument uri content v).script = none ∧
        (parseDocument uri content v).moduleScript = none ∧
        (parseDocument uri content v).style = none) := by
  constructor
  · intro uri content v
    rw [parseDocument_template]
    exact ⟨rfl, rfl, rfl⟩
  · intro uri content v hs hst
    rw [parseDocument_script_char, parseDocument_moduleScript_char, parseDocument_style_char,
      hs, hst]
    exact ⟨rfl, rfl, rfl⟩

/-- Witness for C3 at a document with no script or style tags. -/
theorem template_whole_document_invariant_witness :
    (parseDocument "a.svelte".toList "<h1>hi</h1>".toList 1).script = none ∧
    (parseDocument "a.svelte".toList "<h1>hi</h1>".toList 1).moduleScript = none ∧
    (parseDocument "a.svelte".toList "<h1>hi</h1>".toList 1).style = none :=
  template_whole_document_invariant.2 "a.svelte".toList "<h1>hi</h1>".toList 1 rfl rfl

/-- C5: parsing the concrete three-line document yields a `ts` script region
with content `let n=1;`, a `css` style region (default lang) with content
`h1{color:red}`, and a template region equal to the whole input. -/
theorem parse_concrete_end_to_end :
    ((parseDocument "a.svelte".toList sampleSvelteDoc 1).script.map fun r => (r.lang, r.content))
        = some (some "ts".toList, "let n=1;".toList) ∧
    ((parseDocument "a.svelte".toList sampleSvelteDoc 1).style.map fun r => (r.lang, r.content))
        = some (some "css".toList, "h1\x7bcolor:red\x7d".toList) ∧
    (parseDocument "a.svelte".toList sampleSvelteDoc 1).template.content = sampleSvelteDoc :=
  ⟨rfl, rfl, rfl⟩

lemma dedupCompletionsAux_eq_keepFirst (l : List CompletionItem) : ∀ seen : List (List Char),
    dedupCompletionsAux seen l =
      keepFirstOccurrences (l.filter fun i => decide (completionKey i ∉ seen)) := by
  induction l with
  | nil =>
    intro seen
    rw [List.filter_nil, keepFirstOccurrences]
    rfl
  | cons item rest ih =>
    intro seen
    rw [dedupCompletionsAux, List.filter_cons]
    by_cases h : completionKey item ∈ seen
    · rw [if_pos h, if_neg (by simp [h]), ih seen]
    · rw [if_neg h, if_pos (by simp [h]), ih (completionKey item :: seen),
        keepFirstOccurrences, List.filter_filter]
      congr 1
      congr 1
      apply List.filter_congr
      intro j _
      by_cases h1 : completionKey j = completionKey item <;>
        by_cases h2 : completionKey j ∈ seen <;> simp [h1, h2]

lemma dedupCompletionsAux_fresh (l : List CompletionItem) : ∀ seen : List (List Char),
    ∀ j ∈ dedupCompletionsAux seen l, completionKey j ∉ seen := by
  induction l with
  | nil => intro seen j hj; simp [dedupCompletionsAux] at hj
  | cons item rest ih =>
    intro seen j hj
    rw [dedupCompletionsAux] at hj
    by_cases h : completionKey item ∈ seen
    · rw [if_pos h] at hj
      exact ih seen j hj
    · rw [if_neg h] at hj
      rcases List.mem_cons.mp hj with rfl | hj'
      · exact h
      · have := ih (completionKey item :: seen) j hj'
        exact fun hc => this (List.mem_cons_of_mem _ hc)

lemma dedupCompletionsAux_nodup_keys (l : List CompletionItem) : ∀ seen : List (List Char),
    ((dedupCompletionsAux seen l).map completionKey).Nodup := by
  induction l with
  | nil => intro seen; simp [dedupCompletionsAux]
  | cons item rest ih =>
    intro seen
    rw [dedupCompletionsAux]
    by_cases h : completionKey item ∈ seen
    · rw [if_pos h]; exact ih seen
    · rw [if_neg h]
      rw [List.map_cons, List.nodup_cons]
      refine ⟨?_, ih (completionKey item :: seen)⟩
      intro hc
      obtain ⟨j, hj, hkey⟩ := List.mem_map.mp hc
      have := dedupCompletionsAux_fresh rest (completionKey item :: seen) j hj
      exact this (hkey ▸ List.mem_cons_self _ _)

lemma dedupCompletionsAux_fixed (l : List CompletionItem) : ∀ seen : List (List Char),
    (∀ j ∈ l, completionKey j ∉ seen) → (l.map completionKey).Nodup →
      dedupCompletionsAux seen l = l := by
  induction l with
  | nil => intro seen _ _; rfl
  | cons item rest ih =>
    intro seen hfresh hnodup
    rw [dedupCompletionsAux, if_neg (hfresh item (List.mem_cons_self _ _))]
    congr 1
    rw [List.map_cons, List.nodup_cons] at hnodup
    refine ih (completionKey item :: seen) ?_ hnodup.2
    intro j hj hc
    rcases List.mem_cons.mp hc with heq | hmem
    · exact hnodup.1 (heq ▸ List.mem_map_of_mem completionKey hj)
    · exact hfresh j (List.mem_cons_of_mem _ hj) hmem

/-- C6: `deduplicateCompletions` keeps exactly the first occurrence of each
composite key in input order, is idempotent, and treats an absent `detail`
and an empty-string `detail` as the same key. -/
theorem completion_dedup_idempotent_first_wins :
    (∀ l : List CompletionItem, deduplicateCompletions l = keepFirstOccurrences l) ∧
    (∀ l : List CompletionItem,
      deduplicateCompletions (deduplicateCompletions l) = deduplicateCompletions l) ∧
    (∀ (label : List Char) (kind : Option Nat),
      deduplicateCompletions
        [{ label := label, kind := kind, detail := none },
         { label := label, kind := kind, detail := some [] }] =
        [{ label := label, kind := kind, detail := none }]) := by
  refine ⟨fun l => ?_, fun l => ?_, fun label kind => ?_⟩
  · rw [deduplicateCompletions, dedupCompletionsAux_eq_keepFirst]
    congr 1
    simp
  · exact dedupCompletionsAux_fixed _ _
      (fun j _ => List.not_mem_nil _)
      (dedupCompletionsAux_nodup_keys l [])
  · have hk : completionKey { label := label, kind := kind, detail := some ([] : List Char) } =
        completionKey { label := label, kind := kind, detail := none } := rfl
    rw [deduplicateCompletions, dedupCompletionsAux,
      if_neg (List.not_mem_nil _), dedupCompletionsAux, if_pos (by rw [hk]; exact List.mem_cons_self _ _),
      dedupCompletionsAux]

/-- C7: per-backend failure isolation.  In the workspace-symbol merge
(which consults both backends), when one call throws and the other returns
`[A, B]` (distinct keys), the merged response is exactly `[A, B]` — the
failing backend contributes nothing and no exception escapes.  In the
completion merge, a throwing non-routed backend likewise contributes
nothing (`[c, d]` comes back intact for a `.ts` uri), and a throwing routed
backend yields the well-formed empty list rather than an error. -/
theorem merge_failure_isolation :
    (∀ A B : SymbolInformation, workspaceSymbolKey A ≠ workspaceSymbolKey B →
      onWorkspaceSymbol (Except.error ()) (Except.ok (some [A, B])) = [A, B] ∧
      onWorkspaceSymbol (Except.ok (some [A, B])) (Except.error ()) = [A, B]) ∧
    (∀ (position : Position) (c d : CompletionItem),
      completionKey c ≠ completionKey d →
        onCompletion (some (mkDoc "a.ts".toList)) position (Except.error ())
          (Except.ok (some (CompletionReply.arr [c, d]))) = [c, d]) ∧
    (∀ (position : Position) (tsResp : Except Unit (Option CompletionReply)),
      onCompletion (some (mkDoc "a.svelte".toList)) position (Except.error ()) tsResp = []) := by
  refine ⟨fun A B h => ?_, fun position c d h => ?_, fun position tsResp => ?_⟩
  · constructor <;>
      simp [onWorkspaceSymbol, deduplicateWorkspaceSymbols, dedupSymbolsAux,
        List.mem_singleton, Ne.symm h]
  · simp [onCompletion, completionContribution, deduplicateCompletions,
      dedupCompletionsAux, List.mem_singleton, Ne.symm h, shouldUseSvelteServer,
      shouldUseTypeScriptServer, mkDoc]
  · have hts : shouldUseTypeScriptServer (mkDoc "a.svelte".toList) (some position) = false :=
      (by decide : shouldUseTypeScriptServer (mkDoc "a.svelte".toList) none = false)
    simp [onCompletion, completionContribution, hts, deduplicateCompletions,
      dedupCompletionsAux]

/-- Witness for C7 at two concrete symbols and two concrete completion
items with distinct keys. -/
theorem merge_failure_isolation_witness :
    (onWorkspaceSymbol (Except.error ())
        (Except.ok (some [⟨"a".toList, 1, ⟨"u".toList, ⟨0, 0⟩⟩⟩,
                          ⟨"b".toList, 1, ⟨"u".toList, ⟨0, 0⟩⟩⟩])) =
      [⟨"a".toList, 1, ⟨"u".toList, ⟨0, 0⟩⟩⟩, ⟨"b".toList, 1, ⟨"u".toList, ⟨0, 0⟩⟩⟩] ∧
    onWorkspaceSymbol
        (Except.ok (some [⟨"a".toList, 1, ⟨"u".toList, ⟨0, 0⟩⟩⟩,
                          ⟨"b".toList, 1, ⟨"u".toList, ⟨0, 0⟩⟩⟩]))
        (Except.error ()) =
      [⟨"a".toList, 1, ⟨"u".toList, ⟨0, 0⟩⟩⟩, ⟨"b".toList, 1, ⟨"u".toList, ⟨0, 0⟩⟩⟩]) ∧
    onCompletion (some (mkDoc "a.ts".toList)) ⟨0, 0⟩ (Except.error ())
        (Except.ok (some (CompletionReply.arr
          [⟨"a".toList, some 1, none⟩, ⟨"b".toList, some 1, none⟩]))) =
      [⟨"a".toList, some 1, none⟩, ⟨"b".toList, some 1, none⟩] ∧
    onCompletion (some (mkDoc "a.svelte".toList)) ⟨0, 0⟩ (Except.error ())
        (Except.ok (some (CompletionReply.arr [⟨"a".toList, some 1, none⟩]))) = [] :=
  ⟨merge_failure_isolation.1 _ _ (by decide),
   merge_failure_isolation.2.1 ⟨0, 0⟩ _ _ (by decide),
   merge_failure_isolation.2.2 ⟨0, 0⟩ _⟩

lemma ts_false_of_svelte (parsed : ParsedDocument) (pos : Option Position)
    (h : isSvelteFile parsed.uri = true) :
    shouldUseTypeScriptServer parsed pos = false := by
  unfold shouldUseTypeScriptServer
  rw [h]
  simp

/-- C8: the hover orchestration is extensionally the first-successful-wins
policy — the first applicable backend's non-null result is returned, a null
or thrown result moves on to the other applicable backend, and null comes
back only when no applicable backend produced a non-null result.  (The
routing predicates are mutually exclusive, so the unconditional `return`
inside the source's `try` is indistinguishable from first-non-null.) -/
theorem hover_first_successful_wins :
    ∀ {α : Type} (parsed? : Option ParsedDocument) (position : Position)
      (svelteResp tsResp : Except Unit (Option α)),
      onHover parsed? position svelteResp tsResp =
        hoverFirstSuccessSpec parsed? position svelteResp tsResp := by
  intro α parsed? position sv ts
  cases parsed? with
  | none => rfl
  | some parsed =>
    simp only [onHover, hoverFirstSuccessSpec]
    cases hsv : shouldUseSvelteServer parsed (some position) with
    | true =>
      have hts : shouldUseTypeScriptServer parsed (some position) = false :=
        ts_false_of_svelte parsed (some position) hsv
      simp only [hsv, hts]
      cases sv with
      | ok r => cases r <;> simp [firstNonNull]
      | error e => simp [firstNonNull]
    | false =>
      cases hts : shouldUseTypeScriptServer parsed (some position) with
      | true =>
        simp only [hsv, hts]
        cases ts with
        | ok r => cases r <;> simp [firstNonNull]
        | error e => simp [firstNonNull]
      | false => simp [hsv, hts, firstNonNull]

/-- C10: the selection-range response is the input positions list filtered
and mapped through the per-position contribution — sub-requests are issued
in input order, each contributes at most its first range, and a position
whose routed backend errors or answers empty (or that matches neither
predicate) is silently skipped, so the result can be strictly shorter than
the input (shown by the concrete two-position instance returning one
range). -/
theorem selectionRanges_per_position_lossy :
    (∀ {α : Type} (parsed : ParsedDocument)
      (tsResp svelteResp : Position → Except Unit (Option (List α)))
      (positions : List Position),
      onSelectionRanges (some parsed) tsResp svelteResp positions =
        positions.filterMap (selectionContribution parsed tsResp svelteResp)) ∧
    (∀ {α : Type} (tsResp svelteResp : Position → Except Unit (Option (List α)))
      (positions : List Position),
      onSelectionRanges none tsResp svelteResp positions = ([] : List α)) ∧
    (onSelectionRanges (α := Nat) (some (mkDoc "a.svelte".toList))
        (fun _ => Except.error ())
        (fun p => if p.line = 0 then Except.error () else Except.ok (some [7]))
        [⟨0, 0⟩, ⟨1, 0⟩] = [7] ∧
      (onSelectionRanges (α := Nat) (some (mkDoc "a.svelte".toList))
        (fun _ => Except.error ())
        (fun p => if p.line = 0 then Except.error () else Except.ok (some [7]))
        [⟨0, 0⟩, ⟨1, 0⟩]).length <
      ([⟨0, 0⟩, ⟨1, 0⟩] : List Position).length) := by
  refine ⟨fun parsed tsResp svelteResp positions => ?_, fun tsResp svelteResp positions => rfl,
    by decide, by decide⟩
  induction positions with
  | nil => rfl
  | cons position rest ih =>
    show selectionLoop parsed tsResp svelteResp (position :: rest) = _
    rw [selectionLoop, List.filterMap_cons]
    have hrest : selectionLoop parsed tsResp svelteResp rest =
        rest.filterMap (selectionContribution parsed tsResp svelteResp) := ih
    rw [hrest]
    unfold selectionContribution
    cases hts : shouldUseTypeScriptServer parsed (some position) with
    | true =>
      cases tsResp position with
      | ok r =>
        cases r with
        | none => simp [hts]
        | some l => cases l <;> simp [hts]
      | error e => simp [hts]
    | false =>
      cases hsv : shouldUseSvelteServer parsed (some position) with
      | true =>
        cases svelteResp position with
        | ok r =>
          cases r with
          | none => simp [hts, hsv]
          | some l => cases l <;> simp [hts, hsv]
        | error e => simp [hts, hsv]
      | false => simp [hts, hsv]
